import Mathlib

/-! Verification model of the verse-extraction scripts `scripts/extract_bible_data.py`
and `scripts/extract_darby.py`. Strings are modelled as lists of characters and the
Python regular expressions are translated into explicit scanning functions with the
same matching discipline (leftmost scan, greedy digit runs, lazy bodies bounded by a
lookahead, single-pass substitution). -/

/-- Whitespace characters recognised by the Python regex whitespace class and by
`str.strip` (the ASCII subset, which is all this corpus contains). -/
def wsChars : List Char := [' ', '\t', '\n', '\r', '\x0b', '\x0c']

/-- Decidable whitespace test used by the normalization steps. -/
def isWs (c : Char) : Bool := wsChars.contains c

/-- First index at which `pat` occurs as a contiguous substring of `s`
(the position `str.find` / a regex scan would report), or `none`. -/
def findSub (pat : List Char) : List Char → Option Nat
  | [] => if pat.isEmpty then some 0 else none
  | c :: rest =>
    if pat.isPrefixOf (c :: rest) then some 0
    else (findSub pat rest).map (· + 1)

/-- Whether `pat` occurs as a contiguous substring of `s`. -/
def hasSub (pat s : List Char) : Bool := (findSub pat s).isSome

/-- Value of a run of decimal digits, as computed by Python `int`. -/
def natOfDigits (ds : List Char) : Nat :=
  ds.foldl (fun n c => n * 10 + (c.toNat - 48)) 0

/-- Decimal digit string of a natural number, as produced by Python `str`. -/
def natToDigits (n : Nat) : List Char := Nat.toDigits 10 n

theorem findSub_isPrefixOf {pat s : List Char} {i : Nat} (h : findSub pat s = some i) :
    pat.isPrefixOf (s.drop i) = true := by
  induction s generalizing i with
  | nil =>
    unfold findSub at h
    by_cases hp : pat.isEmpty
    · simp only [hp, if_true, Option.some.injEq] at h
      subst h
      simp [List.isEmpty_iff.mp hp]
    · simp [hp] at h
  | cons c rest ih =>
    unfold findSub at h
    by_cases hp : pat.isPrefixOf (c :: rest)
    · simp only [hp, if_true, Option.some.injEq] at h
      subst h
      simpa using hp
    · cases hfs : findSub pat rest with
      | none => simp [hp, hfs] at h
      | some j =>
        simp [hp, hfs] at h
        subst h
        simpa using ih hfs

theorem findSub_le_length {pat s : List Char} {i : Nat} (h : findSub pat s = some i) :
    i ≤ s.length := by
  induction s generalizing i with
  | nil =>
    unfold findSub at h
    by_cases hp : pat.isEmpty
    · simp only [hp, if_true, Option.some.injEq] at h
      omega
    · simp [hp] at h
  | cons c rest ih =>
    unfold findSub at h
    by_cases hp : pat.isPrefixOf (c :: rest)
    · simp only [hp, if_true, Option.some.injEq] at h
      omega
    · cases hfs : findSub pat rest with
      | none => simp [hp, hfs] at h
      | some j =>
        simp [hp, hfs] at h
        have := ih hfs
        simp only [List.length_cons]
        omega

theorem findSub_pat_length {pat s : List Char} {i : Nat} (h : findSub pat s = some i) :
    i + pat.length ≤ s.length := by
  have h1 := findSub_isPrefixOf h
  have h2 := findSub_le_length h
  have h3 : pat.length ≤ (s.drop i).length :=
    (List.isPrefixOf_iff_prefix.mp h1).length_le
  simp only [List.length_drop] at h3
  omega

/-- Python `str.replace`: rewrite every occurrence of `pat` (scanning left to
right, non-overlapping) to `rep`.  The scan is written with an explicit skip
counter so that it is structurally recursive on the input: a positive counter
means the current character is still inside the occurrence just rewritten. -/
def replaceGo (pat rep : List Char) : Nat → List Char → List Char
  | n + 1, _ :: rest => replaceGo pat rep n rest
  | _, [] => []
  | 0, c :: rest =>
    if pat ≠ [] ∧ pat.isPrefixOf (c :: rest) then
      rep ++ replaceGo pat rep (pat.length - 1) rest
    else
      c :: replaceGo pat rep 0 rest

/-- Python `str.replace` on a whole string. -/
def replaceSub (pat rep s : List Char) : List Char := replaceGo pat rep 0 s

/-- One pass of `re.sub` with pattern `<[^>]+>` replacing each match by a single
space.  A `<` that is not followed later by a `>`, or is immediately followed by
one, matches nothing and is kept as ordinary text.  A positive skip counter means
the scan is still inside the tag just replaced. -/
def stripTagsGo : Nat → List Char → List Char
  | n + 1, _ :: rest => stripTagsGo n rest
  | _, [] => []
  | 0, c :: rest =>
    if c = '<' then
      match findSub ['>'] rest with
      | some q =>
        if 1 ≤ q then ' ' :: stripTagsGo (q + 1) rest else c :: stripTagsGo 0 rest
      | none => c :: stripTagsGo 0 rest
    else c :: stripTagsGo 0 rest

/-- Tag removal on a whole string (each complete tag becomes one space). -/
def stripTags (s : List Char) : List Char := stripTagsGo 0 s

theorem dropWhile_length_le (p : Char → Bool) (l : List Char) :
    (l.dropWhile p).length ≤ l.length := by
  induction l with
  | nil => simp
  | cons c rest ih =>
    by_cases h : p c
    · simp only [List.dropWhile_cons, h, if_true]
      simp only [List.length_cons]
      omega
    · simp [List.dropWhile_cons, h]

/-- `re.sub` with the whitespace-run pattern, replacing each maximal run of
whitespace by one space.  The flag records whether the scan is inside a
whitespace run whose single replacement space has already been emitted. -/
def collapseGo : Bool → List Char → List Char
  | _, [] => []
  | true, c :: rest =>
    if isWs c then collapseGo true rest else c :: collapseGo false rest
  | false, c :: rest =>
    if isWs c then ' ' :: collapseGo true rest else c :: collapseGo false rest

/-- Whitespace-run collapsing on a whole string. -/
def collapseWs (s : List Char) : List Char := collapseGo false s

/-- Remove trailing whitespace (the right half of Python `str.strip`). -/
def dropTrailWs : List Char → List Char
  | [] => []
  | c :: rest =>
    match dropTrailWs rest with
    | [] => if isWs c then [] else [c]
    | r => c :: r

/-- Python `str.strip`: drop leading and trailing whitespace. -/
def stripWs (s : List Char) : List Char := dropTrailWs (s.dropWhile isWs)

/-- The whitespace clean-up both scripts end with: collapse runs, then strip. -/
def normWs (s : List Char) : List Char := stripWs (collapseWs s)

/-- Opening literal of a footnote popup span. -/
def popupOpen : List Char := ("<span class=\"popup\">").toList

/-- Closing span tag. -/
def spanClose : List Char := ("</span>").toList

/-- `re.sub` removing every popup span in one left-to-right pass: each occurrence
of the popup opening tag together with everything up to and including the first
subsequent closing span tag is deleted (the lazy `.*?` of the source pattern); an
opening tag with no later closing tag matches nothing and is kept.  A positive
skip counter means the scan is still inside the span just deleted. -/
def stripPopupsGo : Nat → List Char → List Char
  | n + 1, _ :: rest => stripPopupsGo n rest
  | _, [] => []
  | 0, c :: rest =>
    if popupOpen.isPrefixOf (c :: rest) then
      match findSub spanClose ((c :: rest).drop popupOpen.length) with
      | some j => stripPopupsGo (popupOpen.length + j + spanClose.length - 1) rest
      | none => c :: stripPopupsGo 0 rest
    else c :: stripPopupsGo 0 rest

/-- Popup-span removal on a whole string. -/
def stripPopups (s : List Char) : List Char := stripPopupsGo 0 s

/-- Literal that the next-verse alternative of the lookahead must match. -/
def verseOpenTag : List Char := ("<span class=\"verse\"").toList

/-- Literal that the closing-div alternative of the lookahead must match. -/
def divCloseTag : List Char := ("</div>").toList

/-- The two characters between the id digits and the display digits. -/
def quoteGt : List Char := ("\">").toList

/-- The non-breaking-space entity and closing span tag that end a verse marker. -/
def nbspSpanClose : List Char := ("&#160;</span>").toList

/-- Start of the verse pattern of `extract_bible_data.py` (the marker is recognised
by its id attribute alone). -/
def markerWeb : List Char := ("id=\"V").toList

/-- Start of the verse pattern of `extract_darby.py` (the whole span opening is
required). -/
def markerDarby : List Char := ("<span class=\"verse\" id=\"V").toList

/-- Whether the body's lookahead succeeds at this position: the remaining input
starts with the next verse span or with a closing div tag. -/
def isTermAt (s : List Char) : Bool :=
  verseOpenTag.isPrefixOf s || divCloseTag.isPrefixOf s

/-- First position at which the lookahead alternation matches, if any.  At the end
of the input neither alternative can match, so a final verse with no following
marker and no closing div has no match end (and the engine drops it). -/
def findTerm : List Char → Option Nat
  | [] => none
  | c :: rest => if isTermAt (c :: rest) then some 0 else (findTerm rest).map (· + 1)

/-- One successful match of the verse pattern: absolute match position, the value of
the id-attribute digit group, the value of the leading display digit group, and the
raw body text. -/
structure RawMatch where
  pos : Nat
  idNum : Nat
  dispNum : Nat
  body : List Char
deriving DecidableEq

/-- Attempt to match the verse pattern at the current position: the marker literal,
one or more digits (greedy), the quote-gt characters, one or more digits (greedy),
the non-breaking-space entity with its closing span tag, then the lazy body ending
at the first position where the lookahead succeeds.  Returns the two digit groups,
the body, and the rest of the input starting at the lookahead position (the match
end used to resume scanning, since a lookahead consumes nothing). -/
def matchVerseAt (mark : List Char) (s : List Char) :
    Option (Nat × Nat × List Char × List Char) :=
  if mark.isPrefixOf s then
    let s1 := s.drop mark.length
    let d1 := s1.takeWhile Char.isDigit
    let s2 := s1.dropWhile Char.isDigit
    if d1.isEmpty then none
    else if quoteGt.isPrefixOf s2 then
      let s3 := s2.drop quoteGt.length
      let d2 := s3.takeWhile Char.isDigit
      let s4 := s3.dropWhile Char.isDigit
      if d2.isEmpty then none
      else if nbspSpanClose.isPrefixOf s4 then
        let s5 := s4.drop nbspSpanClose.length
        match findTerm s5 with
        | some j => some (natOfDigits d1, natOfDigits d2, s5.take j, s5.drop j)
        | none => none
      else none
    else none
  else none

theorem matchVerseAt_rest_length {mark s : List Char} {v d : Nat} {b r : List Char}
    (h : matchVerseAt mark s = some (v, d, b, r)) : r.length < s.length := by
  unfold matchVerseAt at h
  by_cases hm : mark.isPrefixOf s
  case neg => rw [if_neg hm] at h; exact absurd h (by simp)
  rw [if_pos hm] at h
  by_cases he1 : ((s.drop mark.length).takeWhile Char.isDigit).isEmpty
  case pos => rw [if_pos he1] at h; exact absurd h (by simp)
  rw [if_neg he1] at h
  by_cases hq : quoteGt.isPrefixOf ((s.drop mark.length).dropWhile Char.isDigit)
  case neg => rw [if_neg hq] at h; exact absurd h (by simp)
  rw [if_pos hq] at h
  by_cases he2 : ((((s.drop mark.length).dropWhile Char.isDigit).drop
      quoteGt.length).takeWhile Char.isDigit).isEmpty
  case pos => rw [if_pos he2] at h; exact absurd h (by simp)
  rw [if_neg he2] at h
  by_cases hn : nbspSpanClose.isPrefixOf ((((s.drop mark.length).dropWhile
      Char.isDigit).drop quoteGt.length).dropWhile Char.isDigit)
  case neg => rw [if_neg hn] at h; exact absurd h (by simp)
  rw [if_pos hn] at h
  simp only [] at h
  cases hft : findTerm (((((s.drop mark.length).dropWhile Char.isDigit).drop
      quoteGt.length).dropWhile Char.isDigit).drop nbspSpanClose.length) with
  | none => rw [hft] at h; exact absurd h (by simp)
  | some j =>
    rw [hft] at h
    simp only [Option.some.injEq, Prod.mk.injEq] at h
    obtain ⟨h1, h2, h3, hr⟩ := h
    subst hr
    have hd1 : ((s.drop mark.length).takeWhile Char.isDigit).length +
        ((s.drop mark.length).dropWhile Char.isDigit).length =
        (s.drop mark.length).length := by
      rw [← List.length_append, List.takeWhile_append_dropWhile]
    have hd1pos : 0 < ((s.drop mark.length).takeWhile Char.isDigit).length := by
      cases hE : (s.drop mark.length).takeWhile Char.isDigit with
      | nil => rw [hE] at he1; simp at he1
      | cons a t => simp [hE]
    have h2 := dropWhile_length_le Char.isDigit
      (((s.drop mark.length).dropWhile Char.isDigit).drop quoteGt.length)
    simp only [List.length_drop, List.length_take] at *
    omega

/-- Model of the `re.findall` scan: try the verse pattern at every position from
left to right; on a match emit it and resume at the match end (the lookahead
position), otherwise advance one character.  `p` is the absolute offset of the
current position inside the original fragment; a positive skip counter means the
scan is still inside the match just emitted. -/
def scanGo (mark : List Char) : Nat → List Char → Nat → List RawMatch
  | n + 1, _ :: rest, p => scanGo mark n rest (p + 1)
  | _, [], _ => []
  | 0, c :: rest, p =>
    match matchVerseAt mark (c :: rest) with
    | some (v, d, b, r) =>
      ⟨p, v, d, b⟩ :: scanGo mark ((c :: rest).length - r.length - 1) rest (p + 1)
    | none => scanGo mark 0 rest (p + 1)

/-- The full `re.findall` scan of a fragment, from offset zero. -/
def scanVersesP (mark s : List Char) (p : Nat) : List RawMatch := scanGo mark 0 s p

/-- Entity literal for the non-breaking space numeric reference. -/
def entNbsp160 : List Char := ("&#160;").toList

/-- Entity literal for the named non-breaking space. -/
def entNbsp : List Char := ("&nbsp;").toList

/-- Entity literal for the encoded less-than sign. -/
def entLt : List Char := ("&lt;").toList

/-- Entity literal for the encoded greater-than sign. -/
def entGt : List Char := ("&gt;").toList

/-- Entity literal for the encoded ampersand. -/
def entAmp : List Char := ("&amp;").toList

/-- Entity literal for the encoded double quote. -/
def entQuot : List Char := ("&quot;").toList

/-- Entity literal for the encoded apostrophe. -/
def entApos : List Char := ("&apos;").toList

/-- The chain of `str.replace` calls decoding the fixed entity set, applied in the
order the source lines execute (innermost first). -/
def decodeEntities (s : List Char) : List Char :=
  replaceSub entApos ['\''] (replaceSub entQuot ['"']
    (replaceSub entAmp ['&'] (replaceSub entGt ['>']
      (replaceSub entLt ['<'] (replaceSub entNbsp [' ']
        (replaceSub entNbsp160 [' '] s))))))

/-- Footnote glyph characters removed by `extract_bible_data.py`. -/
def glyphChars : List Char := ['†', '‡', '§', '¶']

/-- `re.sub` deleting every character of the footnote glyph class. -/
def removeGlyphs (s : List Char) : List Char :=
  s.filter (fun c => !glyphChars.contains c)

/-- Character class `[A-Z0-9]` of the filename patterns. -/
def isBookCodeChar (c : Char) : Bool := (('A' ≤ c) && (c ≤ 'Z')) || c.isDigit

/-- The filename extension literal removed or required by the filename patterns. -/
def htmExt : List Char := (".htm").toList

/-- One output object of either script, with the denormalized reference strings. -/
structure Record where
  Book : List Char
  Chapter : Nat
  Verse : Nat
  Text : List Char
  Translation : List Char
  Reference : List Char
  FullText : List Char
  Testament : List Char
  BookNumber : Nat
deriving DecidableEq

deriving instance DecidableEq for Except

namespace ExtractBibleData

/-- One entry of the list built by `extract_verses_from_html` in
`extract_bible_data.py` (keys `verse_num` and `text`). -/
structure Verse where
  verse_num : Nat
  text : List Char
deriving DecidableEq

/-- The per-body normalization of `extract_bible_data.py`: remove tags (each
becoming a space), decode the fixed entity set, delete footnote glyphs, collapse
whitespace runs and strip. -/
def cleanText (t : List Char) : List Char :=
  normWs (removeGlyphs (decodeEntities (stripTags t)))

/-- The body of the extraction loop: keep a record exactly when the normalized
text is non-empty; the verse number is the id-attribute digit group. -/
def keepVerse (m : RawMatch) : Option Verse :=
  if (cleanText m.body).isEmpty then none
  else some ⟨m.idNum, cleanText m.body⟩

/-- `extract_verses_from_html` of `extract_bible_data.py`: strip popup spans,
scan for the verse pattern, normalize each body and keep non-empty texts. -/
def extract_verses_from_html (html : List Char) : List Verse :=
  (scanVersesP markerWeb (stripPopups html) 0).filterMap keepVerse

/-- The lazy split of the anchored pattern `([A-Z0-9]+?)(\d+)$`: grow the book-code
group one character at a time and stop at the first point where the remainder is a
non-empty all-digit run reaching the end of the name. -/
def splitBookChapter (acc : List Char) : List Char → Option (List Char × List Char)
  | [] => none
  | c :: rest =>
    if isBookCodeChar c then
      if !rest.isEmpty && rest.all Char.isDigit then some (acc ++ [c], rest)
      else splitBookChapter (acc ++ [c]) rest
    else none

/-- `parse_filename` of `extract_bible_data.py`: delete every occurrence of the
extension, then match book code (lazy) and trailing chapter digits. -/
def parse_filename (filename : List Char) : Option (List Char × Nat) :=
  match splitBookChapter [] (replaceSub htmExt [] filename) with
  | some (code, digits) => some (code, natOfDigits digits)
  | none => none

/-- The book-code table of `extract_bible_data.py`. -/
def BOOK_NAMES : List (List Char × List Char) := [
  (("GEN").toList, ("Genesis").toList), (("EXO").toList, ("Exodus").toList),
  (("LEV").toList, ("Leviticus").toList), (("NUM").toList, ("Numbers").toList),
  (("DEU").toList, ("Deuteronomy").toList), (("JOS").toList, ("Joshua").toList),
  (("JDG").toList, ("Judges").toList), (("RUT").toList, ("Ruth").toList),
  (("1SA").toList, ("1 Samuel").toList), (("2SA").toList, ("2 Samuel").toList),
  (("1KI").toList, ("1 Kings").toList), (("2KI").toList, ("2 Kings").toList),
  (("1CH").toList, ("1 Chronicles").toList), (("2CH").toList, ("2 Chronicles").toList),
  (("EZR").toList, ("Ezra").toList), (("NEH").toList, ("Nehemiah").toList),
  (("EST").toList, ("Esther").toList), (("JOB").toList, ("Job").toList),
  (("PSA").toList, ("Psalms").toList), (("PRO").toList, ("Proverbs").toList),
  (("ECC").toList, ("Ecclesiastes").toList), (("SNG").toList, ("Song of Solomon").toList),
  (("ISA").toList, ("Isaiah").toList), (("JER").toList, ("Jeremiah").toList),
  (("LAM").toList, ("Lamentations").toList), (("EZK").toList, ("Ezekiel").toList),
  (("DAN").toList, ("Daniel").toList), (("HOS").toList, ("Hosea").toList),
  (("JOL").toList, ("Joel").toList), (("AMO").toList, ("Amos").toList),
  (("OBA").toList, ("Obadiah").toList), (("JON").toList, ("Jonah").toList),
  (("MIC").toList, ("Micah").toList), (("NAM").toList, ("Nahum").toList),
  (("HAB").toList, ("Habakkuk").toList), (("ZEP").toList, ("Zephaniah").toList),
  (("HAG").toList, ("Haggai").toList), (("ZEC").toList, ("Zechariah").toList),
  (("MAL").toList, ("Malachi").toList), (("MAT").toList, ("Matthew").toList),
  (("MRK").toList, ("Mark").toList), (("LUK").toList, ("Luke").toList),
  (("JHN").toList, ("John").toList), (("ACT").toList, ("Acts").toList),
  (("ROM").toList, ("Romans").toList), (("1CO").toList, ("1 Corinthians").toList),
  (("2CO").toList, ("2 Corinthians").toList), (("GAL").toList, ("Galatians").toList),
  (("EPH").toList, ("Ephesians").toList), (("PHP").toList, ("Philippians").toList),
  (("COL").toList, ("Colossians").toList), (("1TH").toList, ("1 Thessalonians").toList),
  (("2TH").toList, ("2 Thessalonians").toList), (("1TI").toList, ("1 Timothy").toList),
  (("2TI").toList, ("2 Timothy").toList), (("TIT").toList, ("Titus").toList),
  (("PHM").toList, ("Philemon").toList), (("HEB").toList, ("Hebrews").toList),
  (("JAS").toList, ("James").toList), (("1PE").toList, ("1 Peter").toList),
  (("2PE").toList, ("2 Peter").toList), (("1JN").toList, ("1 John").toList),
  (("2JN").toList, ("2 John").toList), (("3JN").toList, ("3 John").toList),
  (("JUD").toList, ("Jude").toList), (("REV").toList, ("Revelation").toList)]

/-- The Old Testament list of `extract_bible_data.py`. -/
def OLD_TESTAMENT_BOOKS : List (List Char) := [
  ("Genesis").toList, ("Exodus").toList, ("Leviticus").toList, ("Numbers").toList,
  ("Deuteronomy").toList, ("Joshua").toList, ("Judges").toList, ("Ruth").toList,
  ("1 Samuel").toList, ("2 Samuel").toList, ("1 Kings").toList, ("2 Kings").toList,
  ("1 Chronicles").toList, ("2 Chronicles").toList, ("Ezra").toList,
  ("Nehemiah").toList, ("Esther").toList, ("Job").toList, ("Psalms").toList,
  ("Proverbs").toList, ("Ecclesiastes").toList, ("Song of Solomon").toList,
  ("Isaiah").toList, ("Jeremiah").toList, ("Lamentations").toList,
  ("Ezekiel").toList, ("Daniel").toList, ("Hosea").toList, ("Joel").toList,
  ("Amos").toList, ("Obadiah").toList, ("Jonah").toList, ("Micah").toList,
  ("Nahum").toList, ("Habakkuk").toList, ("Zephaniah").toList,
  ("Haggai").toList, ("Zechariah").toList, ("Malachi").toList]

/-- Build one output object of `extract_bible_data.py` (translation label WEB,
book number always zero). -/
def mkRecord (bookName : List Char) (chapter : Nat) (v : Verse) : Record :=
  { Book := bookName
    Chapter := chapter
    Verse := v.verse_num
    Text := v.text
    Translation := ("WEB").toList
    Reference := bookName ++ [' '] ++ natToDigits chapter ++ [':'] ++ natToDigits v.verse_num
    FullText := bookName ++ [' '] ++ natToDigits chapter ++ [':'] ++ natToDigits v.verse_num
      ++ [':', ' '] ++ v.text
    Testament := if OLD_TESTAMENT_BOOKS.contains bookName then ("Old").toList
      else ("New").toList
    BookNumber := 0 }

/-- Records contributed by one chapter file of the main loop of
`extract_bible_data.py`: parse the filename, skip unknown codes, extract, enrich. -/
def processFile (filename content : List Char) : List Record :=
  match parse_filename filename with
  | none => []
  | some (code, chapter) =>
    match BOOK_NAMES.lookup code with
    | none => []
    | some bookName => (extract_verses_from_html content).map (mkRecord bookName chapter)

/-- The main loop of `extract_bible_data.py` over the sorted chapter files, each
given with its read outcome.  There is no exception handler anywhere in this
script, so a failing read propagates out of the loop and aborts the whole batch,
discarding all accumulated records. -/
def main : List (List Char × Except Unit (List Char)) → Except Unit (List Record)
  | [] => .ok []
  | (filename, readResult) :: rest =>
    match parse_filename filename with
    | none => main rest
    | some (code, chapter) =>
      match BOOK_NAMES.lookup code with
      | none => main rest
      | some bookName =>
        match readResult with
        | .error e => .error e
        | .ok content =>
          match main rest with
          | .error e => .error e
          | .ok recs =>
            .ok (((extract_verses_from_html content).map (mkRecord bookName chapter)) ++ recs)

end ExtractBibleData

namespace ExtractDarby

/-- One entry of the list built by `extract_verses_from_html` in
`extract_darby.py` (keys `verse_number` and `text`). -/
structure Verse where
  verse_number : Nat
  text : List Char
deriving DecidableEq

/-- The per-body normalization of `extract_darby.py`: remove tags (each becoming a
space), decode the fixed entity set, delete square brackets (supplied words),
collapse whitespace runs and strip.  This script has no popup or glyph removal. -/
def cleanText (t : List Char) : List Char :=
  normWs (replaceSub [']'] [] (replaceSub ['['] [] (decodeEntities (stripTags t))))

/-- The body of the extraction loop of `extract_darby.py`: keep a record exactly
when the normalized text is non-empty; the verse number is the leading display
digit group (`match[1]`), not the id attribute. -/
def keepVerse (m : RawMatch) : Option Verse :=
  if (cleanText m.body).isEmpty then none
  else some ⟨m.dispNum, cleanText m.body⟩

/-- `extract_verses_from_html` of `extract_darby.py`: scan the raw fragment (no
popup stripping) for the full-span verse pattern and keep non-empty texts. -/
def extract_verses_from_html (html : List Char) : List Verse :=
  (scanVersesP markerDarby html 0).filterMap keepVerse

/-- `parse_filename` of `extract_darby.py`: anchored match of exactly three
book-code characters, a greedy digit run, then the literal extension (a prefix
match, so trailing characters after `.htm` are allowed). -/
def parse_filename (filename : List Char) : Option (List Char × Nat) :=
  match filename with
  | a :: b :: c :: rest =>
    if isBookCodeChar a && isBookCodeChar b && isBookCodeChar c then
      if !(rest.takeWhile Char.isDigit).isEmpty
          && htmExt.isPrefixOf (rest.dropWhile Char.isDigit) then
        some ([a, b, c], natOfDigits (rest.takeWhile Char.isDigit))
      else none
    else none
  | _ => none

/-- The book-code table of `extract_darby.py` (identical content to the table in
`extract_bible_data.py`, repeated in that script). -/
def BOOK_NAMES : List (List Char × List Char) := ExtractBibleData.BOOK_NAMES

/-- The canonical 66-book order of `extract_darby.py`. -/
def BOOK_ORDER : List (List Char) := [
  ("Genesis").toList, ("Exodus").toList, ("Leviticus").toList, ("Numbers").toList,
  ("Deuteronomy").toList, ("Joshua").toList, ("Judges").toList, ("Ruth").toList,
  ("1 Samuel").toList, ("2 Samuel").toList, ("1 Kings").toList, ("2 Kings").toList,
  ("1 Chronicles").toList, ("2 Chronicles").toList, ("Ezra").toList,
  ("Nehemiah").toList, ("Esther").toList, ("Job").toList, ("Psalms").toList,
  ("Proverbs").toList, ("Ecclesiastes").toList, ("Song of Solomon").toList,
  ("Isaiah").toList, ("Jeremiah").toList, ("Lamentations").toList,
  ("Ezekiel").toList, ("Daniel").toList, ("Hosea").toList, ("Joel").toList,
  ("Amos").toList, ("Obadiah").toList, ("Jonah").toList, ("Micah").toList,
  ("Nahum").toList, ("Habakkuk").toList, ("Zephaniah").toList,
  ("Haggai").toList, ("Zechariah").toList, ("Malachi").toList,
  ("Matthew").toList, ("Mark").toList, ("Luke").toList, ("John").toList,
  ("Acts").toList, ("Romans").toList, ("1 Corinthians").toList,
  ("2 Corinthians").toList, ("Galatians").toList, ("Ephesians").toList,
  ("Philippians").toList, ("Colossians").toList, ("1 Thessalonians").toList,
  ("2 Thessalonians").toList, ("1 Timothy").toList, ("2 Timothy").toList,
  ("Titus").toList, ("Philemon").toList, ("Hebrews").toList, ("James").toList,
  ("1 Peter").toList, ("2 Peter").toList, ("1 John").toList, ("2 John").toList,
  ("3 John").toList, ("Jude").toList, ("Revelation").toList]

/-- `get_testament` of `extract_darby.py`: membership in the first 39 books. -/
def get_testament (bookName : List Char) : List Char :=
  if (BOOK_ORDER.take 39).contains bookName then ("Old").toList else ("New").toList

/-- Build one output object of `extract_darby.py` (translation label Darby, book
number the zero-based canonical index). -/
def mkRecord (bookName : List Char) (chapter : Nat) (v : Verse) : Record :=
  { Book := bookName
    Chapter := chapter
    Verse := v.verse_number
    Text := v.text
    Translation := ("Darby").toList
    Reference := bookName ++ [' '] ++ natToDigits chapter ++ [':']
      ++ natToDigits v.verse_number
    FullText := bookName ++ [' '] ++ natToDigits chapter ++ [':']
      ++ natToDigits v.verse_number ++ [':', ' '] ++ v.text
    Testament := get_testament bookName
    BookNumber := if BOOK_ORDER.contains bookName then BOOK_ORDER.indexOf bookName else 0 }

/-- Records contributed by one chapter file of the main loop of
`extract_darby.py`. -/
def processFile (filename content : List Char) : List Record :=
  match parse_filename filename with
  | none => []
  | some (code, chapter) =>
    match BOOK_NAMES.lookup code with
    | none => []
    | some bookName => (extract_verses_from_html content).map (mkRecord bookName chapter)

/-- The main loop of `extract_darby.py` over the chapter files, each given with
its read outcome.  The loop body is wrapped in a try/except that logs the error
and continues, so a failing read only skips that one file. -/
def main : List (List Char × Except Unit (List Char)) → List Record
  | [] => []
  | (filename, readResult) :: rest =>
    match parse_filename filename with
    | none => main rest
    | some (code, chapter) =>
      match BOOK_NAMES.lookup code with
      | none => main rest
      | some bookName =>
        match readResult with
        | .error _ => main rest
        | .ok content =>
          ((extract_verses_from_html content).map (mkRecord bookName chapter)) ++ main rest

end ExtractDarby

/-- Filename with an unrecognized book code. -/
def xyzName : List Char := ("XYZ01.htm").toList

/-- The unrecognized book code parsed from `xyzName`. -/
def xyzCode : List Char := ("XYZ").toList

/-- A recognised Genesis chapter filename. -/
def gen02Name : List Char := ("GEN02.htm").toList

/-- The Genesis book code. -/
def genCode : List Char := ("GEN").toList

/-- Fragment with a footnote popup span inside the verse body. -/
def exPopupLeak : List Char :=
  ("<span class=\"verse\" id=\"V1\">1&#160;</span>go<span class=\"popup\">NOTE</span>od text</div>").toList

/-- Inner text of the popup span of `exPopupLeak`. -/
def popupInner : List Char := ("NOTE").toList

/-- Fragment of the spec's concrete scenario: two verse markers separated by an
italic tag, with neither a sentinel marker nor a closing block tag after the
final verse. -/
def exScenario : List Char :=
  ("...id=\"V1\">1&#160;</span>In the <i>beginning</i>.<span class=\"verse\" id=\"V2\">2&#160;</span>And the earth...").toList

/-- Fragment whose verse body carries an encoded less-than entity. -/
def exEntity : List Char := ("id=\"V1\">1&#160;</span>a&lt;b</div>").toList

/-- Fragment with out-of-order and duplicate verse numbers. -/
def exOutOfOrder : List Char :=
  ("id=\"V3\">3&#160;</span>c<span class=\"verse\" id=\"V1\">1&#160;</span>a<span class=\"verse\" id=\"V3\">3&#160;</span>b</div>").toList

/-- Fragment whose first verse body is only markup and whitespace. -/
def exEmptyBody : List Char :=
  ("id=\"V1\">1&#160;</span><i> </i><span class=\"verse\" id=\"V2\">2&#160;</span>ok</div>").toList

/-- Fragment whose marker has id digits 7 but display digits 8. -/
def exMismatch : List Char :=
  ("<span class=\"verse\" id=\"V7\">8&#160;</span>text</div>").toList

/-- Fragment whose marker has equal id and display digits. -/
def exAgree : List Char :=
  ("<span class=\"verse\" id=\"V5\">5&#160;</span>text</div>").toList

/-- Fragment whose single marker carries verse number zero. -/
def exVZero : List Char := ("id=\"V0\">0&#160;</span>x</div>").toList

/-- Plain single-verse fragment with no angle brackets or ampersands in the body. -/
def exPlain : List Char :=
  ("<span class=\"verse\" id=\"V1\">1&#160;</span>hello world</div>").toList

/-- Chapter content used as the readable file of the batch counterexample. -/
def exodusContent : List Char :=
  ("<span class=\"verse\" id=\"V1\">1&#160;</span>In Egypt</div>").toList

/-- String free of markup and of complete entities on which the web normalization
is not idempotent: glyph removal glues the surrounding characters into the
non-breaking-space entity, which the second pass then decodes away. -/
def gGlyphEntity : List Char := ("&#†160;").toList

/-- String free of markup and of complete entities on which the darby
normalization is not idempotent: bracket removal glues the surrounding characters
into the non-breaking-space entity. -/
def gBracketEntity : List Char := ("&#[]160;").toList

/-- Sample normalization input free of angle brackets and ampersands. -/
def cleanSample : List Char := ("  hello\t[world] \n again ¶ ").toList

/-- C1, counterexample.  The extract_darby.py variant performs no popup removal:
on this fragment its single extracted verse text is the normalization of the raw
body including the popup, so the popup's inner text NOTE appears in the verse
record, refuting the claim that noise spans are removed in both script variants. -/
theorem c1_counterexample :
    ExtractDarby.extract_verses_from_html exPopupLeak =
      [⟨1, ("go NOTE od text").toList⟩] ∧
    (ExtractDarby.extract_verses_from_html exPopupLeak).any
      (fun v => hasSub popupInner v.text) = true := by decide

/-- C1, amended claim.  Only the extract_bible_data.py variant removes noise
spans before verse-boundary matching (each popup opening tag through the first
subsequent closing span tag is deleted first), so its verse text on this fragment
does not contain the popup's inner text; the extract_darby.py variant has no
popup removal and the popup's inner text appears in its verse text. -/
theorem c1_amended :
    ExtractBibleData.extract_verses_from_html exPopupLeak =
      [⟨1, ("good text").toList⟩] ∧
    (ExtractBibleData.extract_verses_from_html exPopupLeak).all
      (fun v => !hasSub popupInner v.text) = true ∧
    (ExtractDarby.extract_verses_from_html exPopupLeak).any
      (fun v => hasSub popupInner v.text) = true := by decide

/-- C2, counterexample.  On a fragment whose verse body contains the encoded
entity for a less-than sign, the decoded record text contains a literal `<`,
refuting the claim that no record text ever contains an angle bracket. -/
theorem c2_counterexample :
    ExtractBibleData.extract_verses_from_html exEntity = [⟨1, ("a<b").toList⟩] ∧
    (ExtractBibleData.extract_verses_from_html exEntity).any
      (fun v => v.text.contains '<') = true := by decide

/-- C3, counterexample.  On the spec's concrete scenario fragment the
extract_bible_data.py extractor returns one record, not two (the final verse has
neither a following marker nor a closing div, so its lookahead never succeeds and
the match is dropped), and the first verse's text keeps a space before the period
because tags are replaced by spaces; the extract_darby.py extractor returns
nothing at all since the first marker lacks the full span prefix. -/
theorem c3_counterexample :
    ExtractBibleData.extract_verses_from_html exScenario =
      [⟨1, ("In the beginning .").toList⟩] ∧
    ExtractBibleData.extract_verses_from_html exScenario ≠
      [⟨1, ("In the beginning.").toList⟩, ⟨2, ("And the earth...").toList⟩] ∧
    ExtractDarby.extract_verses_from_html exScenario = [] := by decide

/-- C3, amended claim.  On the scenario fragment extract_bible_data.py returns
exactly one record, verse 1 with text "In the beginning ." (tag replacement
leaves a space before the period); the final verse is dropped because the
fragment boundary is not a valid terminator.  Appending a closing div restores
the second record, verse 2 with text "And the earth...". -/
theorem c3_amended :
    ExtractBibleData.extract_verses_from_html exScenario =
      [⟨1, ("In the beginning .").toList⟩] ∧
    ExtractBibleData.extract_verses_from_html (exScenario ++ divCloseTag) =
      [⟨1, ("In the beginning .").toList⟩, ⟨2, ("And the earth...").toList⟩] := by decide

/-- C6, counterexample.  The string of `gGlyphEntity` is free of markup (no angle
brackets) and free of every entity of the decoded set, yet the web normalization
applied twice differs from the normalization applied once, because removing the
dagger glyph creates a non-breaking-space entity that only the second pass
decodes; the bracket removal of the darby variant does the same on
`gBracketEntity`. -/
theorem c6_counterexample :
    (gGlyphEntity.contains '<' = false ∧ gGlyphEntity.contains '>' = false ∧
     hasSub entNbsp160 gGlyphEntity = false ∧ hasSub entNbsp gGlyphEntity = false ∧
     hasSub entLt gGlyphEntity = false ∧ hasSub entGt gGlyphEntity = false ∧
     hasSub entAmp gGlyphEntity = false ∧ hasSub entQuot gGlyphEntity = false ∧
     hasSub entApos gGlyphEntity = false) ∧
    ExtractBibleData.cleanText (ExtractBibleData.cleanText gGlyphEntity) ≠
      ExtractBibleData.cleanText gGlyphEntity ∧
    (gBracketEntity.contains '<' = false ∧ gBracketEntity.contains '>' = false ∧
     hasSub entNbsp160 gBracketEntity = false ∧ hasSub entNbsp gBracketEntity = false ∧
     hasSub entLt gBracketEntity = false ∧ hasSub entGt gBracketEntity = false ∧
     hasSub entAmp gBracketEntity = false ∧ hasSub entQuot gBracketEntity = false ∧
     hasSub entApos gBracketEntity = false) ∧
    ExtractDarby.cleanText (ExtractDarby.cleanText gBracketEntity) ≠
      ExtractDarby.cleanText gBracketEntity := by decide

/-- C8, counterexample.  When the first chapter file fails to read,
extract_bible_data.py has no exception handler, so the whole batch aborts and the
readable second file contributes nothing; extract_darby.py on the same input
skips the failing file and still produces the records of the second. -/
theorem c8_counterexample :
    ExtractBibleData.main [((("GEN01.htm").toList), .error ()),
        ((("EXO01.htm").toList), .ok exodusContent)] = .error () ∧
    (ExtractDarby.main [((("GEN01.htm").toList), .error ()),
        ((("EXO01.htm").toList), .ok exodusContent)]).map (fun r => r.Book) =
      [("Exodus").toList] := by decide

/-- C9, counterexample.  The filename GEN00.htm is accepted by both filename
parsers and yields chapter 0, and a marker whose digits are 0 yields a record
with verse number 0, refuting the claim that chapter and verse are always at
least 1. -/
theorem c9_counterexample :
    ExtractBibleData.parse_filename (("GEN00.htm").toList) =
      some (("GEN").toList, 0) ∧
    ExtractDarby.parse_filename (("GEN00.htm").toList) =
      some (("GEN").toList, 0) ∧
    ExtractBibleData.extract_verses_from_html exVZero = [⟨0, ("x").toList⟩] := by decide

/-- C10, counterexample.  On a marker whose id digits differ from its display
digits the two extractors do not return the same verse number:
extract_bible_data.py emits the id value 7 while extract_darby.py emits the
display value 8. -/
theorem c10_counterexample :
    (ExtractBibleData.extract_verses_from_html exMismatch).map (fun v => v.verse_num) =
      [7] ∧
    (ExtractDarby.extract_verses_from_html exMismatch).map (fun v => v.verse_number) =
      [8] := by decide

/-- C10, amended claim.  The two extractors read different capture groups:
extract_bible_data.py emits the id-attribute digits and extract_darby.py the
leading display digits, so on a marker where the two values differ the records
disagree (7 against 8), and they coincide exactly on markers whose two digit
groups have the same value. -/
theorem c10_amended :
    ExtractBibleData.extract_verses_from_html exMismatch = [⟨7, ("text").toList⟩] ∧
    ExtractDarby.extract_verses_from_html exMismatch = [⟨8, ("text").toList⟩] ∧
    ExtractBibleData.extract_verses_from_html exAgree = [⟨5, ("text").toList⟩] ∧
    ExtractDarby.extract_verses_from_html exAgree = [⟨5, ("text").toList⟩] := by decide

/-- C9, amended claim.  Chapter and verse are whatever the digit runs denote, with
no lower bound: GEN00.htm is processed as Genesis chapter 0, a V0 marker yields
verse 0, and the batch happily emits the corresponding record, while nonzero
digit runs give the expected values. -/
theorem c9_amended :
    ExtractBibleData.main [((("GEN00.htm").toList), .ok exVZero)] =
      .ok [{ Book := ("Genesis").toList, Chapter := 0, Verse := 0,
             Text := ("x").toList, Translation := ("WEB").toList,
             Reference := ("Genesis 0:0").toList,
             FullText := ("Genesis 0:0: x").toList,
             Testament := ("Old").toList, BookNumber := 0 }] ∧
    ExtractBibleData.parse_filename (("GEN02.htm").toList) =
      some (("GEN").toList, 2) ∧
    ExtractDarby.parse_filename (("JHN03.htm").toList) =
      some (("JHN").toList, 3) := by decide

/-- C7.  A filename whose book code is missing from the table produces no records
and is skipped: in both scripts the per-file processing of XYZ01.htm yields the
empty record list for every content, and in both batch drivers such a file leaves
the batch result exactly as if the file were absent (no abort, no error record). -/
theorem c7_unknown_code_skipped :
    (∀ content : List Char,
      ExtractBibleData.processFile xyzName content = []) ∧
    (∀ content : List Char,
      ExtractDarby.processFile xyzName content = []) ∧
    (∀ (content : List Char) (rest : List (List Char × Except Unit (List Char))),
      ExtractBibleData.main ((xyzName, .ok content) :: rest) =
        ExtractBibleData.main rest) ∧
    (∀ (content : List Char) (rest : List (List Char × Except Unit (List Char))),
      ExtractDarby.main ((xyzName, .ok content) :: rest) =
        ExtractDarby.main rest) := by
  have hpw : ExtractBibleData.parse_filename xyzName = some (xyzCode, 1) := by decide
  have hpd : ExtractDarby.parse_filename xyzName = some (xyzCode, 1) := by decide
  have hlw : ExtractBibleData.BOOK_NAMES.lookup xyzCode = none := by decide
  have hld : ExtractDarby.BOOK_NAMES.lookup xyzCode = none := by decide
  refine ⟨fun content => ?_, fun content => ?_, fun content rest => ?_,
    fun content rest => ?_⟩
  · simp [ExtractBibleData.processFile, hpw, hlw]
  · simp [ExtractDarby.processFile, hpd, hld]
  · simp [ExtractBibleData.main, hpw, hlw]
  · simp [ExtractDarby.main, hpd, hld]

/-- C8, amended claim.  Only extract_darby.py contains the failure while reading
any single chapter file: its driver drops exactly that file and processes the
rest, so a batch with a failing file equals the batch without it; the
extract_bible_data.py driver has no handler, and a read failure of any processed
file makes the whole batch fail. -/
theorem c8_amended :
    (∀ (pre post : List (List Char × Except Unit (List Char))) (name : List Char),
      ExtractDarby.main (pre ++ (name, .error ()) :: post) =
        ExtractDarby.main (pre ++ post)) ∧
    (∀ rest : List (List Char × Except Unit (List Char)),
      ExtractBibleData.main ((gen02Name, .error ()) :: rest) = .error ()) := by
  constructor
  · intro pre post name
    induction pre with
    | nil =>
      simp only [List.nil_append]
      cases hp : ExtractDarby.parse_filename name with
      | none => simp [ExtractDarby.main, hp]
      | some v =>
        obtain ⟨code, chapter⟩ := v
        cases hl : ExtractDarby.BOOK_NAMES.lookup code with
        | none => simp [ExtractDarby.main, hp, hl]
        | some book => simp [ExtractDarby.main, hp, hl]
    | cons f pre ih =>
      obtain ⟨fname, fres⟩ := f
      simp only [List.cons_append]
      cases hp : ExtractDarby.parse_filename fname with
      | none => simp [ExtractDarby.main, hp, ih]
      | some v =>
        obtain ⟨code, chapter⟩ := v
        cases hl : ExtractDarby.BOOK_NAMES.lookup code with
        | none => simp [ExtractDarby.main, hp, hl, ih]
        | some book =>
          cases fres with
          | error e => simp [ExtractDarby.main, hp, hl, ih]
          | ok content => simp [ExtractDarby.main, hp, hl, ih]
  · intro rest
    have hp : ExtractBibleData.parse_filename gen02Name = some (genCode, 2) := by
      decide
    have hl : ExtractBibleData.BOOK_NAMES.lookup genCode =
        some (("Genesis").toList) := by decide
    simp [ExtractBibleData.main, hp, hl]

theorem filter_all {α : Type} (p : α → Bool) (l : List α) :
    (l.filter p).all p = true := by
  induction l with
  | nil => rfl
  | cons a t ih =>
    by_cases h : p a
    · simp [List.filter_cons, h, ih]
    · simp [List.filter_cons, h, ih]

theorem web_filterMap_eq (l : List RawMatch) :
    l.filterMap ExtractBibleData.keepVerse =
      (l.map (fun m =>
        ExtractBibleData.Verse.mk m.idNum (ExtractBibleData.cleanText m.body))).filter
        (fun v => !v.text.isEmpty) := by
  induction l with
  | nil => rfl
  | cons a t ih =>
    simp only [List.filterMap_cons, List.map_cons, List.filter_cons]
    by_cases h : (ExtractBibleData.cleanText a.body).isEmpty
    · simp [ExtractBibleData.keepVerse, h, ih]
    · simp [ExtractBibleData.keepVerse, h, ih]

theorem darby_filterMap_eq (l : List RawMatch) :
    l.filterMap ExtractDarby.keepVerse =
      (l.map (fun m =>
        ExtractDarby.Verse.mk m.dispNum (ExtractDarby.cleanText m.body))).filter
        (fun v => !v.text.isEmpty) := by
  induction l with
  | nil => rfl
  | cons a t ih =>
    simp only [List.filterMap_cons, List.map_cons, List.filter_cons]
    by_cases h : (ExtractDarby.cleanText a.body).isEmpty
    · simp [ExtractDarby.keepVerse, h, ih]
    · simp [ExtractDarby.keepVerse, h, ih]

/-- C4.  A matched marker contributes a record exactly when its normalized text is
non-empty: each extractor equals the by-nonemptiness filter of the per-marker
normalizations, every returned record has non-empty text, and on a fragment whose
first verse body is only markup and whitespace only the second verse survives. -/
theorem c4_record_iff_nonempty (html : List Char) :
    ExtractBibleData.extract_verses_from_html html =
      ((scanVersesP markerWeb (stripPopups html) 0).map
        (fun m =>
          ExtractBibleData.Verse.mk m.idNum (ExtractBibleData.cleanText m.body))).filter
        (fun v => !v.text.isEmpty) ∧
    (ExtractBibleData.extract_verses_from_html html).all
      (fun v => !v.text.isEmpty) = true ∧
    ExtractDarby.extract_verses_from_html html =
      ((scanVersesP markerDarby html 0).map
        (fun m =>
          ExtractDarby.Verse.mk m.dispNum (ExtractDarby.cleanText m.body))).filter
        (fun v => !v.text.isEmpty) ∧
    (ExtractDarby.extract_verses_from_html html).all
      (fun v => !v.text.isEmpty) = true ∧
    ExtractBibleData.extract_verses_from_html exEmptyBody = [⟨2, ("ok").toList⟩] := by
  refine ⟨web_filterMap_eq _, ?_, darby_filterMap_eq _, ?_, by decide⟩
  · show ((scanVersesP markerWeb (stripPopups html) 0).filterMap
      ExtractBibleData.keepVerse).all (fun v => !v.text.isEmpty) = true
    rw [web_filterMap_eq]
    exact filter_all _ _
  · show ((scanVersesP markerDarby html 0).filterMap
      ExtractDarby.keepVerse).all (fun v => !v.text.isEmpty) = true
    rw [darby_filterMap_eq]
    exact filter_all _ _

theorem scanGo_pos_le (mark : List Char) (s : List Char) :
    ∀ (skip p : Nat) (m : RawMatch), m ∈ scanGo mark skip s p → p ≤ m.pos := by
  induction s with
  | nil =>
    intro skip p m hm
    cases skip <;> simp [scanGo] at hm
  | cons c rest ih =>
    intro skip p m hm
    cases skip with
    | succ n =>
      have := ih n (p + 1) m (by simpa [scanGo] using hm)
      omega
    | zero =>
      cases hmt : matchVerseAt mark (c :: rest) with
      | none =>
        have := ih 0 (p + 1) m (by simpa [scanGo, hmt] using hm)
        omega
      | some t =>
        obtain ⟨v, d, b, r⟩ := t
        simp only [scanGo, hmt, List.mem_cons] at hm
        rcases hm with rfl | hm
        · exact Nat.le_refl _
        · have := ih _ (p + 1) m hm
          omega

theorem scanGo_chain (mark : List Char) (s : List Char) :
    ∀ (skip p : Nat),
      List.Chain' (fun a b => a < b) ((scanGo mark skip s p).map (fun m => m.pos)) := by
  induction s with
  | nil => intro skip p; cases skip <;> simp [scanGo]
  | cons c rest ih =>
    intro skip p
    cases skip with
    | succ n => simpa [scanGo] using ih n (p + 1)
    | zero =>
      cases hmt : matchVerseAt mark (c :: rest) with
      | none => simpa [scanGo, hmt] using ih 0 (p + 1)
      | some t =>
        obtain ⟨v, d, b, r⟩ := t
        simp only [scanGo, hmt, List.map_cons]
        rw [List.chain'_cons']
        refine ⟨?_, ih _ _⟩
        intro y hy
        have hmem : y ∈ (scanGo mark ((c :: rest).length - r.length - 1) rest
            (p + 1)).map (fun m => m.pos) := List.mem_of_mem_head? hy
        obtain ⟨m, hm, rfl⟩ := List.mem_map.mp hmem
        have := scanGo_pos_le mark rest _ (p + 1) m hm
        omega

/-- C5.  The records follow marker document order: the absolute match positions
produced by the scan are strictly increasing for every fragment, and on a
fragment with out-of-order and duplicate verse numbers the output keeps the
document order 3, 1, 3 rather than sorting or deduplicating. -/
theorem c5_document_order :
    (∀ (mark html : List Char) (p : Nat),
      List.Chain' (fun a b => a < b) ((scanVersesP mark html p).map (fun m => m.pos))) ∧
    ExtractBibleData.extract_verses_from_html exOutOfOrder =
      [⟨3, ("c").toList⟩, ⟨1, ("a").toList⟩, ⟨3, ("b").toList⟩] ∧
    (ExtractBibleData.extract_verses_from_html exOutOfOrder).map (fun v => v.verse_num) =
      [3, 1, 3] := by
  exact ⟨fun mark html p => scanGo_chain mark html 0 p, by decide, by decide⟩

theorem isPrefixOf_mem {pat l : List Char} {a : Char} (hp : pat.isPrefixOf l = true)
    (ha : a ∈ pat) : a ∈ l :=
  (List.isPrefixOf_iff_prefix.mp hp).subset ha

theorem replaceGo_eq_self {pat rep : List Char} {a : Char} (hpa : a ∈ pat) :
    ∀ s : List Char, a ∉ s → replaceGo pat rep 0 s = s := by
  intro s
  induction s with
  | nil => intro _; rfl
  | cons c rest ih =>
    intro hna
    have hnot : ¬(pat ≠ [] ∧ pat.isPrefixOf (c :: rest) = true) := by
      rintro ⟨-, hpre⟩
      exact hna (isPrefixOf_mem hpre hpa)
    rw [replaceGo, if_neg hnot, ih (fun hmem => hna (List.mem_cons_of_mem c hmem))]

theorem mem_replaceGo {pat rep : List Char} {c : Char} :
    ∀ (s : List Char) (skip : Nat), c ∈ replaceGo pat rep skip s → c ∈ rep ∨ c ∈ s := by
  intro s
  induction s with
  | nil => intro skip h; cases skip <;> simp [replaceGo] at h
  | cons a rest ih =>
    intro skip h
    cases skip with
    | succ n =>
      rcases ih n (by simpa [replaceGo] using h) with h1 | h1
      · exact Or.inl h1
      · exact Or.inr (List.mem_cons_of_mem a h1)
    | zero =>
      by_cases hc : pat ≠ [] ∧ pat.isPrefixOf (a :: rest) = true
      · rw [replaceGo, if_pos hc] at h
        rcases List.mem_append.mp h with h1 | h1
        · exact Or.inl h1
        · rcases ih _ h1 with h2 | h2
          · exact Or.inl h2
          · exact Or.inr (List.mem_cons_of_mem a h2)
      · rw [replaceGo, if_neg hc] at h
        rcases List.mem_cons.mp h with rfl | h1
        · exact Or.inr (List.mem_cons_self _ _)
        · rcases ih 0 h1 with h2 | h2
          · exact Or.inl h2
          · exact Or.inr (List.mem_cons_of_mem a h2)

theorem replaceGo_single_not_mem {a : Char} {rep : List Char} (hna : a ∉ rep) :
    ∀ s : List Char, a ∉ replaceGo [a] rep 0 s := by
  intro s
  induction s with
  | nil => simp [replaceGo]
  | cons c rest ih =>
    by_cases hc : c = a
    · subst hc
      have hcond : ([c] ≠ ([] : List Char) ∧ [c].isPrefixOf (c :: rest) = true) :=
        ⟨by simp, by simp [List.isPrefixOf]⟩
      rw [replaceGo, if_pos hcond]
      intro hmem
      rcases List.mem_append.mp hmem with h1 | h1
      · exact hna h1
      · exact ih h1
    · have hcond : ¬([a] ≠ ([] : List Char) ∧ [a].isPrefixOf (c :: rest) = true) := by
        rintro ⟨-, hpre⟩
        simp [List.isPrefixOf] at hpre
        exact hc hpre.symm
      rw [replaceGo, if_neg hcond]
      intro hmem
      rcases List.mem_cons.mp hmem with h1 | h1
      · exact hc h1.symm
      · exact ih h1

theorem decodeEntities_eq_self {s : List Char} (h : ('&') ∉ s) :
    decodeEntities s = s := by
  have e1 : replaceSub entNbsp160 [' '] s = s := replaceGo_eq_self (by decide) s h
  have e2 : replaceSub entNbsp [' '] s = s := replaceGo_eq_self (by decide) s h
  have e3 : replaceSub entLt ['<'] s = s := replaceGo_eq_self (by decide) s h
  have e4 : replaceSub entGt ['>'] s = s := replaceGo_eq_self (by decide) s h
  have e5 : replaceSub entAmp ['&'] s = s := replaceGo_eq_self (by decide) s h
  have e6 : replaceSub entQuot ['"'] s = s := replaceGo_eq_self (by decide) s h
  have e7 : replaceSub entApos ['\''] s = s := replaceGo_eq_self (by decide) s h
  unfold decodeEntities
  rw [e1, e2, e3, e4, e5, e6, e7]

theorem stripTagsGo_eq_self : ∀ s : List Char, ('<') ∉ s → stripTagsGo 0 s = s := by
  intro s
  induction s with
  | nil => intro _; rfl
  | cons c rest ih =>
    intro h
    have hc : ¬(c = '<') := by
      intro hh
      subst hh
      exact h (List.mem_cons_self _ _)
    rw [stripTagsGo, if_neg hc, ih (fun hm => h (List.mem_cons_of_mem c hm))]

theorem stripTags_eq_self {s : List Char} (h : ('<') ∉ s) : stripTags s = s :=
  stripTagsGo_eq_self s h

theorem mem_collapseGo {c : Char} :
    ∀ (s : List Char) (b : Bool), c ∈ collapseGo b s → c = ' ' ∨ c ∈ s := by
  intro s
  induction s with
  | nil => intro b h; simp [collapseGo] at h
  | cons a rest ih =>
    intro b h
    by_cases hws : isWs a
    · cases b with
      | true =>
        rw [collapseGo, if_pos hws] at h
        rcases ih true h with h1 | h1
        · exact Or.inl h1
        · exact Or.inr (List.mem_cons_of_mem a h1)
      | false =>
        rw [collapseGo, if_pos hws] at h
        rcases List.mem_cons.mp h with rfl | h1
        · exact Or.inl rfl
        · rcases ih true h1 with h2 | h2
          · exact Or.inl h2
          · exact Or.inr (List.mem_cons_of_mem a h2)
    · have h' : c ∈ a :: collapseGo false rest := by
        cases b with
        | true => rwa [collapseGo, if_neg hws] at h
        | false => rwa [collapseGo, if_neg hws] at h
      rcases List.mem_cons.mp h' with rfl | h1
      · exact Or.inr (List.mem_cons_self _ _)
      · rcases ih false h1 with h2 | h2
        · exact Or.inl h2
        · exact Or.inr (List.mem_cons_of_mem a h2)

theorem mem_dropTrailWs {c : Char} : ∀ s : List Char, c ∈ dropTrailWs s → c ∈ s := by
  intro s
  induction s with
  | nil => intro h; simp [dropTrailWs] at h
  | cons a rest ih =>
    intro h
    cases hdt : dropTrailWs rest with
    | nil =>
      rw [dropTrailWs, hdt] at h
      by_cases hws : isWs a
      · simp [hws] at h
      · rw [if_neg hws] at h
        rcases List.mem_singleton.mp h with rfl
        exact List.mem_cons_self _ _
    | cons r0 rtail =>
      rw [dropTrailWs, hdt] at h
      rcases List.mem_cons.mp h with rfl | h1
      · exact List.mem_cons_self _ _
      · exact List.mem_cons_of_mem a (ih (hdt ▸ h1))

theorem mem_dropWhile {c : Char} {p : Char → Bool} :
    ∀ s : List Char, c ∈ s.dropWhile p → c ∈ s := by
  intro s
  induction s with
  | nil => intro h; simp at h
  | cons a rest ih =>
    intro h
    by_cases hp : p a
    · rw [List.dropWhile_cons_of_pos hp] at h
      exact List.mem_cons_of_mem a (ih h)
    · rwa [List.dropWhile_cons_of_neg hp] at h

theorem mem_normWs {c : Char} {s : List Char} (h : c ∈ normWs s) :
    c = ' ' ∨ c ∈ s := by
  unfold normWs stripWs collapseWs at h
  exact mem_collapseGo s false (mem_dropWhile _ (mem_dropTrailWs _ h))

theorem mem_removeGlyphs {c : Char} {s : List Char} (h : c ∈ removeGlyphs s) :
    c ∈ s := (List.mem_filter.mp h).1

theorem mem_cleanText_web {c : Char} {b : List Char} (h1 : ('<') ∉ b)
    (h3 : ('&') ∉ b) (hc : c ∈ ExtractBibleData.cleanText b) : c = ' ' ∨ c ∈ b := by
  unfold ExtractBibleData.cleanText at hc
  rw [stripTags_eq_self h1, decodeEntities_eq_self h3] at hc
  rcases mem_normWs hc with h | h
  · exact Or.inl h
  · exact Or.inr (mem_removeGlyphs h)

theorem mem_cleanText_darby {c : Char} {b : List Char} (h1 : ('<') ∉ b)
    (h3 : ('&') ∉ b) (hc : c ∈ ExtractDarby.cleanText b) : c = ' ' ∨ c ∈ b := by
  unfold ExtractDarby.cleanText at hc
  rw [stripTags_eq_self h1, decodeEntities_eq_self h3] at hc
  rcases mem_normWs hc with h | h
  · exact Or.inl h
  · rcases mem_replaceGo _ 0 h with h2 | h2
    · simp at h2
    · rcases mem_replaceGo _ 0 h2 with h4 | h4
      · simp at h4
      · exact Or.inr h4

/-- C2, amended claim.  Tag removal leaves no angle bracket of its own, but the
entity decoding step turns encoded angle brackets back into literal ones and raw
unmatched brackets in a body survive, so the guarantee holds for bodies that
carry no angle bracket and no ampersand: on every fragment whose matched verse
bodies are free of those three characters, every record of either extractor has
a text without any angle bracket. -/
theorem c2_amended (html : List Char)
    (hw : ∀ m ∈ scanVersesP markerWeb (stripPopups html) 0,
      ('<') ∉ m.body ∧ ('>') ∉ m.body ∧ ('&') ∉ m.body)
    (hd : ∀ m ∈ scanVersesP markerDarby html 0,
      ('<') ∉ m.body ∧ ('>') ∉ m.body ∧ ('&') ∉ m.body) :
    (∀ v ∈ ExtractBibleData.extract_verses_from_html html,
      ('<') ∉ v.text ∧ ('>') ∉ v.text) ∧
    (∀ v ∈ ExtractDarby.extract_verses_from_html html,
      ('<') ∉ v.text ∧ ('>') ∉ v.text) := by
  constructor
  · intro v hv
    obtain ⟨m, hm, hk⟩ := List.mem_filterMap.mp hv
    obtain ⟨hbl, hbg, hba⟩ := hw m hm
    unfold ExtractBibleData.keepVerse at hk
    by_cases he : (ExtractBibleData.cleanText m.body).isEmpty
    · simp [he] at hk
    · rw [if_neg he] at hk
      injection hk with hk
      subst hk
      constructor
      · intro hmem
        rcases mem_cleanText_web hbl hba hmem with h | h
        · exact absurd h (by decide)
        · exact hbl h
      · intro hmem
        rcases mem_cleanText_web hbl hba hmem with h | h
        · exact absurd h (by decide)
        · exact hbg h
  · intro v hv
    obtain ⟨m, hm, hk⟩ := List.mem_filterMap.mp hv
    obtain ⟨hbl, hbg, hba⟩ := hd m hm
    unfold ExtractDarby.keepVerse at hk
    by_cases he : (ExtractDarby.cleanText m.body).isEmpty
    · simp [he] at hk
    · rw [if_neg he] at hk
      injection hk with hk
      subst hk
      constructor
      · intro hmem
        rcases mem_cleanText_darby hbl hba hmem with h | h
        · exact absurd h (by decide)
        · exact hbl h
      · intro hmem
        rcases mem_cleanText_darby hbl hba hmem with h | h
        · exact absurd h (by decide)
        · exact hbg h

/-- C2, witness.  The amended claim applied to a concrete plain fragment: the
extracted record of the web extractor on `exPlain` has no angle bracket in its
text. -/
theorem c2_amended_witness :
    ('<') ∉ (ExtractBibleData.Verse.mk 1 (("hello world").toList)).text ∧
    ('>') ∉ (ExtractBibleData.Verse.mk 1 (("hello world").toList)).text :=
  (c2_amended exPlain (by decide) (by decide)).1
    ⟨1, ("hello world").toList⟩ (by decide)

/-- Invariant of collapsed text: every whitespace character is a plain space and
no two adjacent characters are both whitespace. -/
def Tidy : List Char → Prop
  | [] => True
  | [c] => isWs c = true → c = ' '
  | c :: d :: rest =>
    (isWs c = true → c = ' ') ∧ (isWs c = true → isWs d = false) ∧ Tidy (d :: rest)

theorem tidy_tail {c : Char} {l : List Char} (h : Tidy (c :: l)) : Tidy l := by
  cases l with
  | nil => trivial
  | cons d rest => exact h.2.2

theorem tidy_head_space {c : Char} {l : List Char} (h : Tidy (c :: l))
    (hws : isWs c = true) : c = ' ' := by
  cases l with
  | nil => exact h hws
  | cons d rest => exact h.1 hws

theorem tidy_adj {c d : Char} {l : List Char} (h : Tidy (c :: d :: l))
    (hws : isWs c = true) : isWs d = false := h.2.1 hws

theorem tidy_mk {c : Char} {l : List Char} (h1 : isWs c = true → c = ' ')
    (h2 : ∀ d, l.head? = some d → isWs c = true → isWs d = false)
    (h3 : Tidy l) : Tidy (c :: l) := by
  cases l with
  | nil => exact h1
  | cons d rest => exact ⟨h1, h2 d rfl, h3⟩

theorem collapseGo_head_true {c : Char} :
    ∀ l : List Char, (collapseGo true l).head? = some c → isWs c = false := by
  intro l
  induction l with
  | nil => intro h; simp [collapseGo] at h
  | cons a rest ih =>
    intro h
    by_cases hws : isWs a
    · rw [collapseGo, if_pos hws] at h
      exact ih h
    · rw [collapseGo, if_neg hws] at h
      simp only [List.head?_cons, Option.some.injEq] at h
      subst h
      simpa using hws

theorem tidy_collapseGo : ∀ (l : List Char) (b : Bool), Tidy (collapseGo b l) := by
  intro l
  induction l with
  | nil => intro b; cases b <;> trivial
  | cons a rest ih =>
    intro b
    by_cases hws : isWs a
    · cases b with
      | true => rw [collapseGo, if_pos hws]; exact ih true
      | false =>
        rw [collapseGo, if_pos hws]
        refine tidy_mk (fun _ => rfl) ?_ (ih true)
        intro d hd _
        exact collapseGo_head_true rest hd
    · have hgoal : Tidy (a :: collapseGo false rest) := by
        refine tidy_mk (fun hw => absurd hw (by simpa using hws)) ?_ (ih false)
        intro d _ hw
        exact absurd hw (by simpa using hws)
      cases b with
      | true => rw [collapseGo, if_neg hws]; exact hgoal
      | false => rw [collapseGo, if_neg hws]; exact hgoal

theorem collapseGo_eq_self :
    ∀ l : List Char, Tidy l →
      collapseGo false l = l ∧
      ((∀ d, l.head? = some d → isWs d = false) → collapseGo true l = l) := by
  intro l
  induction l with
  | nil => intro _; exact ⟨rfl, fun _ => rfl⟩
  | cons a rest ih =>
    intro ht
    obtain ⟨ih1, ih2⟩ := ih (tidy_tail ht)
    have hresthead : isWs a = true → ∀ d, rest.head? = some d → isWs d = false := by
      intro hws d hd
      cases rest with
      | nil => simp at hd
      | cons r0 rtail =>
        simp only [List.head?_cons, Option.some.injEq] at hd
        subst hd
        exact tidy_adj ht hws
    constructor
    · by_cases hws : isWs a
      · rw [collapseGo, if_pos hws, ih2 (hresthead hws),
          tidy_head_space ht hws]
      · rw [collapseGo, if_neg hws, ih1]
    · intro hhead
      have hws : isWs a = false := hhead a rfl
      rw [collapseGo, if_neg (by simp [hws]), ih1]

theorem tidy_dropWhile : ∀ l : List Char, Tidy l → Tidy (l.dropWhile isWs) := by
  intro l
  induction l with
  | nil => intro _; trivial
  | cons a rest ih =>
    intro ht
    by_cases hws : isWs a
    · rw [List.dropWhile_cons_of_pos hws]
      exact ih (tidy_tail ht)
    · rwa [List.dropWhile_cons_of_neg hws]

theorem dropTrailWs_head {c : Char} {m : List Char} :
    ∀ l : List Char, dropTrailWs l = c :: m → l.head? = some c := by
  intro l
  cases l with
  | nil => intro h; simp [dropTrailWs] at h
  | cons a t =>
    intro h
    rw [dropTrailWs] at h
    cases hdt : dropTrailWs t with
    | nil =>
      rw [hdt] at h
      by_cases hws : isWs a
      · rw [if_pos hws] at h; cases h
      · rw [if_neg hws] at h
        injection h with h1 h2
        subst h1
        rfl
    | cons r0 rtail =>
      rw [hdt] at h
      injection h with h1 h2
      subst h1
      rfl

theorem tidy_dropTrail : ∀ l : List Char, Tidy l → Tidy (dropTrailWs l) := by
  intro l
  induction l with
  | nil => intro _; trivial
  | cons a t ih =>
    intro ht
    rw [dropTrailWs]
    cases hdt : dropTrailWs t with
    | nil =>
      by_cases hws : isWs a
      · rw [if_pos hws]; trivial
      · rw [if_neg hws]
        exact fun hw => absurd hw (by simpa using hws)
    | cons r0 rtail =>
      refine tidy_mk (fun hw => tidy_head_space ht hw) ?_ (hdt ▸ ih (tidy_tail ht))
      intro d hd hw
      simp only [List.head?_cons, Option.some.injEq] at hd
      subst hd
      have hth : t.head? = some r0 := dropTrailWs_head t hdt
      cases t with
      | nil => simp at hth
      | cons b ttail =>
        simp only [List.head?_cons, Option.some.injEq] at hth
        subst hth
        exact tidy_adj ht hw

theorem dropWhile_head_not {c : Char} {p : Char → Bool} :
    ∀ l : List Char, (l.dropWhile p).head? = some c → p c = false := by
  intro l
  induction l with
  | nil => intro h; simp at h
  | cons a rest ih =>
    intro h
    by_cases hp : p a
    · rw [List.dropWhile_cons_of_pos hp] at h
      exact ih h
    · rw [List.dropWhile_cons_of_neg hp] at h
      simp only [List.head?_cons, Option.some.injEq] at h
      subst h
      simpa using hp

theorem dropWhile_eq_self_of_head {p : Char → Bool} {l : List Char}
    (h : ∀ c, l.head? = some c → p c = false) : l.dropWhile p = l := by
  cases l with
  | nil => rfl
  | cons a rest =>
    have := h a rfl
    rw [List.dropWhile_cons_of_neg (by simp [this])]

theorem dropTrailWs_idem : ∀ l : List Char, dropTrailWs (dropTrailWs l) = dropTrailWs l := by
  intro l
  induction l with
  | nil => rfl
  | cons a t ih =>
    cases hdt : dropTrailWs t with
    | nil =>
      have douter : dropTrailWs (a :: t) = if isWs a then [] else [a] := by
        rw [dropTrailWs, hdt]
      rw [douter]
      by_cases hws : isWs a
      · rw [if_pos hws]; rfl
      · rw [if_neg hws]
        show dropTrailWs [a] = [a]
        rw [dropTrailWs]
        show (if isWs a then [] else [a]) = [a]
        rw [if_neg hws]
    | cons r0 rtail =>
      have hin : dropTrailWs (r0 :: rtail) = r0 :: rtail := by
        rw [← hdt]
        exact ih
      have douter : dropTrailWs (a :: t) = a :: r0 :: rtail := by
        rw [dropTrailWs, hdt]
      rw [douter, dropTrailWs, hin]

theorem normWs_head_not_ws {c : Char} {s : List Char}
    (h : (normWs s).head? = some c) : isWs c = false := by
  cases hu : normWs s with
  | nil => rw [hu] at h; cases h
  | cons u0 utail =>
    rw [hu] at h
    simp only [List.head?_cons, Option.some.injEq] at h
    subst h
    unfold normWs stripWs collapseWs at hu
    have := dropTrailWs_head _ hu
    exact dropWhile_head_not _ this

theorem normWs_idem (s : List Char) : normWs (normWs s) = normWs s := by
  have htidy : Tidy (collapseGo false s) := tidy_collapseGo s false
  have h1 : Tidy ((collapseGo false s).dropWhile isWs) := tidy_dropWhile _ htidy
  have h2 : Tidy (normWs s) := tidy_dropTrail _ h1
  have hcol : collapseGo false (normWs s) = normWs s := (collapseGo_eq_self _ h2).1
  have hdw : (normWs s).dropWhile isWs = normWs s :=
    dropWhile_eq_self_of_head (fun c hc => normWs_head_not_ws hc)
  have hdt2 : dropTrailWs (normWs s) = normWs s := by
    show dropTrailWs (dropTrailWs ((collapseGo false s).dropWhile isWs)) =
      dropTrailWs ((collapseGo false s).dropWhile isWs)
    exact dropTrailWs_idem _
  show dropTrailWs ((collapseWs (normWs s)).dropWhile isWs) = normWs s
  show dropTrailWs ((collapseGo false (normWs s)).dropWhile isWs) = normWs s
  rw [hcol, hdw, hdt2]

/-- C6, amended claim.  The per-verse normalization of either script is
idempotent on strings free of markup, of entities and of the ampersand that
could re-encode one: for every string with no angle bracket and no ampersand,
applying the normalization twice yields the same result as applying it once (the
counterexample shows that glyph or bracket removal can otherwise splice a fresh
entity out of entity fragments, which only a second pass would decode). -/
theorem c6_amended (s : List Char) (h1 : ('<') ∉ s) (h2 : ('>') ∉ s)
    (h3 : ('&') ∉ s) :
    ExtractBibleData.cleanText (ExtractBibleData.cleanText s) =
      ExtractBibleData.cleanText s ∧
    ExtractDarby.cleanText (ExtractDarby.cleanText s) =
      ExtractDarby.cleanText s := by
  constructor
  · have inner : ExtractBibleData.cleanText s = normWs (removeGlyphs s) := by
      unfold ExtractBibleData.cleanText
      rw [stripTags_eq_self h1, decodeEntities_eq_self h3]
    have tmem : ∀ c : Char, c ∈ normWs (removeGlyphs s) →
        c = ' ' ∨ c ∈ removeGlyphs s := fun c hc => mem_normWs hc
    have tlt : ('<') ∉ normWs (removeGlyphs s) := by
      intro hm
      rcases tmem _ hm with h | h
      · exact absurd h (by decide)
      · exact h1 (mem_removeGlyphs h)
    have tamp : ('&') ∉ normWs (removeGlyphs s) := by
      intro hm
      rcases tmem _ hm with h | h
      · exact absurd h (by decide)
      · exact h3 (mem_removeGlyphs h)
    have eg : removeGlyphs (normWs (removeGlyphs s)) = normWs (removeGlyphs s) := by
      apply List.filter_eq_self.mpr
      intro c hc
      rcases tmem c hc with rfl | hcs
      · decide
      · exact (List.mem_filter.mp hcs).2
    rw [inner]
    unfold ExtractBibleData.cleanText
    rw [stripTags_eq_self tlt, decodeEntities_eq_self tamp, eg, normWs_idem]
  · have inner : ExtractDarby.cleanText s =
        normWs (replaceSub [']'] [] (replaceSub ['['] [] s)) := by
      unfold ExtractDarby.cleanText
      rw [stripTags_eq_self h1, decodeEntities_eq_self h3]
    have umem : ∀ c : Char, c ∈ replaceSub [']'] [] (replaceSub ['['] [] s) →
        c ∈ s := by
      intro c hc
      rcases mem_replaceGo _ 0 hc with h | h
      · simp at h
      · rcases mem_replaceGo _ 0 h with h4 | h4
        · simp at h4
        · exact h4
    have tmem : ∀ c : Char,
        c ∈ normWs (replaceSub [']'] [] (replaceSub ['['] [] s)) →
        c = ' ' ∨ c ∈ replaceSub [']'] [] (replaceSub ['['] [] s) :=
      fun c hc => mem_normWs hc
    have tlt : ('<') ∉ normWs (replaceSub [']'] [] (replaceSub ['['] [] s)) := by
      intro hm
      rcases tmem _ hm with h | h
      · exact absurd h (by decide)
      · exact h1 (umem _ h)
    have tamp : ('&') ∉ normWs (replaceSub [']'] [] (replaceSub ['['] [] s)) := by
      intro hm
      rcases tmem _ hm with h | h
      · exact absurd h (by decide)
      · exact h3 (umem _ h)
    have topen : ('[') ∉ normWs (replaceSub [']'] [] (replaceSub ['['] [] s)) := by
      intro hm
      rcases tmem _ hm with h | h
      · exact absurd h (by decide)
      · rcases mem_replaceGo _ 0 h with h4 | h4
        · simp at h4
        · exact replaceGo_single_not_mem (by simp) s h4
    have tclose : (']') ∉ normWs (replaceSub [']'] [] (replaceSub ['['] [] s)) := by
      intro hm
      rcases tmem _ hm with h | h
      · exact absurd h (by decide)
      · exact replaceGo_single_not_mem (by simp) (replaceSub ['['] [] s) h
    have eA : replaceSub ['['] []
        (normWs (replaceSub [']'] [] (replaceSub ['['] [] s))) =
        normWs (replaceSub [']'] [] (replaceSub ['['] [] s)) :=
      replaceGo_eq_self (by simp) _ topen
    have eB : replaceSub [']'] []
        (normWs (replaceSub [']'] [] (replaceSub ['['] [] s))) =
        normWs (replaceSub [']'] [] (replaceSub ['['] [] s)) :=
      replaceGo_eq_self (by simp) _ tclose
    rw [inner]
    unfold ExtractDarby.cleanText
    rw [stripTags_eq_self tlt, decodeEntities_eq_self tamp, eA, eB, normWs_idem]

/-- C6, witness.  The amended idempotence applied to a concrete string with inner
whitespace runs, glyphs and brackets but no angle bracket or ampersand. -/
theorem c6_amended_witness :
    ExtractBibleData.cleanText (ExtractBibleData.cleanText cleanSample) =
      ExtractBibleData.cleanText cleanSample ∧
    ExtractDarby.cleanText (ExtractDarby.cleanText cleanSample) =
      ExtractDarby.cleanText cleanSample :=
  c6_amended cleanSample (by decide) (by decide) (by decide)

/-- C4, witness.  The characterization instantiated at a concrete fragment: the
records extracted from `exPlain` all carry non-empty text. -/
theorem c4_record_iff_nonempty_witness :
    (ExtractBibleData.extract_verses_from_html exPlain).all
      (fun v => !v.text.isEmpty) = true :=
  (c4_record_iff_nonempty exPlain).2.1

/-- C5, witness.  The strictly increasing match positions instantiated on the
out-of-order fragment. -/
theorem c5_document_order_witness :
    List.Chain' (fun a b => a < b)
      ((scanVersesP markerWeb exOutOfOrder 0).map (fun m => m.pos)) :=
  c5_document_order.1 markerWeb exOutOfOrder 0

/-- C7, witness.  The skip behaviour instantiated at a concrete content. -/
theorem c7_unknown_code_skipped_witness :
    ExtractBibleData.processFile xyzName exPlain = [] :=
  c7_unknown_code_skipped.1 exPlain

/-- C8, witness.  The web driver instantiated on a one-file batch whose read
fails. -/
theorem c8_amended_witness :
    ExtractBibleData.main [(gen02Name, .error ())] = .error () :=
  c8_amended.2 []
